import Mathlib

/-!
Verification of the Nightlamp Bible local data layer.

This file shallowly embeds the data layer of the repository
(js/importKJV.js, js/db.js, js/providers.js and the style-upsert part of
js/app.js) and proves the frozen claims about it.

Modelling conventions:
- An IndexedDB object store with key path "key" is modelled as a list of
  records kept strictly sorted by key (IndexedDB stores records in
  ascending primary-key order); `put` inserts or replaces by key.
- Stores that are only accessed point-wise (verse styles, bookmarks,
  settings) are modelled as functions from key to optional record.
- JavaScript Date.now() is passed in as an explicit natural-number
  parameter.
- DOMParser is modelled by handing the importer an optional document
  tree: `none` stands for a document with a parsererror node.
-/

namespace Nightlamp

/-! ## Composite keys
importKJV.js line 82 builds a verse key; providers.js lines 1528-1534
build bookmark and verse-style keys. -/

/-- Key of an imported verse row: importKJV.js line 82,
`${bookName}|${chapNum}|${verseNum}`. -/
def mkVerseKey (book : String) (chapter verse : Nat) : String :=
  book ++ "|" ++ toString chapter ++ "|" ++ toString verse

/-- providers.js bookmarkKey: `${translation}|${book}|${chapter}`. -/
def bookmarkKey (translation book : String) (chapter : Nat) : String :=
  translation ++ "|" ++ book ++ "|" ++ toString chapter

/-- providers.js verseStyleKey: `${translation}|${book}|${chapter}|${verse}`. -/
def verseStyleKey (translation book : String) (chapter verse : Nat) : String :=
  translation ++ "|" ++ book ++ "|" ++ toString chapter ++ "|" ++ toString verse

/-! ## Whitespace normalisation (importKJV.js lines 34-39)
The JavaScript regular-expression class \s contains the ASCII whitespace
characters, the no-break space U+00A0 and the other Unicode space
separators; String.prototype.trim strips the same class from both ends. -/

/-- Characters matched by \s in a JavaScript regular expression (also the
class stripped by String.prototype.trim). -/
def isJsWs (c : Char) : Bool :=
  c = ' ' || c = Char.ofNat 0x09 || c = Char.ofNat 0x0A || c = Char.ofNat 0x0B ||
  c = Char.ofNat 0x0C || c = Char.ofNat 0x0D || c = Char.ofNat 0xA0 ||
  c = Char.ofNat 0x1680 || (0x2000 ≤ c.toNat && c.toNat ≤ 0x200A) ||
  c = Char.ofNat 0x2028 || c = Char.ofNat 0x2029 || c = Char.ofNat 0x202F ||
  c = Char.ofNat 0x205F || c = Char.ofNat 0x3000 || c = Char.ofNat 0xFEFF

/-- One pass of `.replace(/\s+/g, " ")`: every maximal run of \s
characters becomes a single ASCII space.  The boolean records whether the
previous character was part of a whitespace run. -/
def collapseWsAux : Bool → List Char → List Char
  | _, [] => []
  | inRun, c :: rest =>
    if isJsWs c then
      if inRun then collapseWsAux true rest
      else ' ' :: collapseWsAux true rest
    else c :: collapseWsAux false rest

/-- `.replace(/\s+/g, " ")` of importKJV.js line 36. -/
def collapseWs (s : String) : String := ⟨collapseWsAux false s.data⟩

/-- `.replace(/ /g, " ")` of importKJV.js line 37. -/
def replaceNbsp (s : String) : String :=
  ⟨s.data.map (fun c => if c = Char.ofNat 0xA0 then ' ' else c)⟩

/-- JavaScript String.prototype.trim. -/
def jsTrim (s : String) : String :=
  ⟨((s.data.dropWhile isJsWs).reverse.dropWhile isJsWs).reverse⟩

/-- importKJV.js lines 34-39: collapse whitespace runs, replace no-break
spaces, trim both ends. -/
def normalizeWhitespace (s : String) : String :=
  jsTrim (replaceNbsp (collapseWs s))

/-- Modelled from the spec (section 4.2): collapse every run of
whitespace, including the no-break space, to a single ASCII space and
trim both ends.  Used to compare the implemented normaliser with the
wording of the specification. -/
def specNormalize (s : String) : String :=
  jsTrim (collapseWs s)

/-! ## Verse rows and the verse object store (db.js) -/

/-- One imported verse record, importKJV.js lines 81-87. -/
structure VerseRow where
  key : String
  book : String
  chapter : Nat
  verse : Nat
  text : String
  deriving DecidableEq, Repr

/-- A verse object store: the records in ascending primary-key order, as
IndexedDB keeps them. -/
abbrev VerseStore := List VerseRow

/-- Lexicographic comparison of primary keys, the order IndexedDB uses
for string keys (code-unit by code-unit). -/
def keyLtb (a b : String) : Bool := decide (a.data < b.data)

/-- IndexedDB `store.put`: insert at the key position, replacing any
record already stored under the same key. -/
def put : VerseStore → VerseRow → VerseStore
  | [], r => [r]
  | x :: xs, r =>
    if keyLtb r.key x.key then r :: x :: xs
    else if r.key = x.key then r :: xs
    else x :: put xs r

/-- db.js putMany (lines 219-226): put every row, in order, in one
transaction. -/
def putMany (s : VerseStore) (rows : List VerseRow) : VerseStore :=
  rows.foldl put s

/-- db.js getOne (lines 237-243) restricted to verse stores. -/
def getOne (s : VerseStore) (k : String) : Option VerseRow :=
  s.find? (fun r => r.key = k)

/-- db.js countStore (lines 211-217). -/
def countStore (s : VerseStore) : Nat := s.length

/-- The store invariant IndexedDB maintains: records strictly sorted by
primary key. -/
abbrev SortedKeys (s : VerseStore) : Prop :=
  List.Pairwise (fun a b => a.key < b.key) s

/-- The last row of the list carrying the given key, if any: the row that
survives when the whole list is put into a store, since later puts
overwrite earlier ones at the same key. -/
def lookupLast (rows : List VerseRow) (k : String) : Option VerseRow :=
  rows.reverse.find? (fun r => r.key = k)

/-! ## Search (db.js searchTextCursor, lines 275-296) -/

/-- Boolean test: the first list is a prefix of the second. -/
def isPrefixL : List Char → List Char → Bool
  | [], _ => true
  | _ :: _, [] => false
  | a :: as, b :: bs => a = b && isPrefixL as bs

/-- Boolean test: the first list occurs contiguously inside the second. -/
def isInfixL (q : List Char) : List Char → Bool
  | [] => isPrefixL q []
  | c :: t => isPrefixL q (c :: t) || isInfixL q t

/-- JavaScript String.prototype.includes. -/
def jsIncludes (text q : String) : Bool := isInfixL q.data text.data

/-- JavaScript String.prototype.toLowerCase: lower-case every character. -/
def jsToLower (s : String) : String := ⟨s.data.map Char.toLower⟩

/-- The per-record test of db.js line 289-290:
`(v.text || "").toLowerCase().includes(q)`. -/
def searchMatch (q : String) (r : VerseRow) : Bool :=
  jsIncludes (jsToLower r.text) q

/-- The cursor loop of db.js lines 284-293: stop when the cursor is
exhausted or the hit list has reached the limit, otherwise test the
record and continue. -/
def searchLoop (q : String) (limit : Nat) (hits : List VerseRow) :
    List VerseRow → List VerseRow
  | [] => hits
  | r :: rest =>
    if limit ≤ hits.length then hits
    else if searchMatch q r then searchLoop q limit (hits ++ [r]) rest
    else searchLoop q limit hits rest

/-- db.js searchTextCursor (lines 275-296).  The boolean in the result
records whether a storage transaction was opened: the empty-query branch
returns before `storeTx` is called. -/
def searchTextCursor (s : VerseStore) (query : String) (limit : Nat) :
    List VerseRow × Bool :=
  let q := jsToLower (jsTrim query)
  if q.isEmpty then ([], false)
  else (searchLoop q limit [] s, true)

/-! ## The importer (importKJV.js lines 20-105) -/

/-- Canonical book names, importKJV.js lines 20-32. -/
def BOOKS : List String := [
  "Genesis", "Exodus", "Leviticus", "Numbers", "Deuteronomy",
  "Joshua", "Judges", "Ruth", "1 Samuel", "2 Samuel",
  "1 Kings", "2 Kings", "1 Chronicles", "2 Chronicles",
  "Ezra", "Nehemiah", "Esther", "Job", "Psalms", "Proverbs",
  "Ecclesiastes", "Song of Solomon", "Isaiah", "Jeremiah", "Lamentations",
  "Ezekiel", "Daniel", "Hosea", "Joel", "Amos", "Obadiah", "Jonah", "Micah",
  "Nahum", "Habakkuk", "Zephaniah", "Haggai", "Zechariah", "Malachi",
  "Matthew", "Mark", "Luke", "John", "Acts", "Romans", "1 Corinthians",
  "2 Corinthians", "Galatians", "Ephesians", "Philippians", "Colossians",
  "1 Thessalonians", "2 Thessalonians", "1 Timothy", "2 Timothy", "Titus",
  "Philemon", "Hebrews", "James", "1 Peter", "2 Peter",
  "1 John", "2 John", "3 John", "Jude", "Revelation"]

/-- A verse element: its parsed numeric `number` attribute (`none` for a
missing or non-numeric attribute) and its text content. -/
structure VerseNode where
  number : Option Nat
  text : String

/-- A chapter element with its direct-child verse elements. -/
structure ChapterNode where
  number : Option Nat
  verses : List VerseNode

/-- A book element with its direct-child chapter elements. -/
structure BookNode where
  number : Option Nat
  chapters : List ChapterNode

/-- A parsed source document: its book elements in document order. -/
structure BibleDoc where
  books : List BookNode

/-- importKJV.js lines 66-68: `BOOKS[bookNum - 1]`, skipping the book
when the lookup yields no name (missing, zero, or out-of-range ordinal,
since in JavaScript a missing attribute or NaN indexes outside the
array). -/
def bookNameFor : Option Nat → Option String
  | none => none
  | some n => if n = 0 then none else BOOKS.get? (n - 1)

/-- importKJV.js lines 76-87: rows contributed by one verse node.  A
verse with a missing or zero ordinal, or whose normalised text is empty,
contributes nothing. -/
def verseRowsOf (bookName : String) (chapNum : Nat) (v : VerseNode) :
    List VerseRow :=
  match v.number with
  | none => []
  | some n =>
    if n = 0 then []
    else
      let t := normalizeWhitespace v.text
      if t.isEmpty then []
      else [{ key := mkVerseKey bookName chapNum n, book := bookName,
              chapter := chapNum, verse := n, text := t }]

/-- importKJV.js lines 71-92: rows contributed by one chapter node; a
chapter with a missing or zero ordinal is skipped. -/
def chapterRowsOf (bookName : String) (ch : ChapterNode) : List VerseRow :=
  match ch.number with
  | none => []
  | some n =>
    if n = 0 then []
    else ch.verses.flatMap (verseRowsOf bookName n)

/-- importKJV.js lines 65-93: rows contributed by one book node; a book
whose ordinal has no canonical-name mapping is skipped entirely. -/
def bookRowsOf (b : BookNode) : List VerseRow :=
  match bookNameFor b.number with
  | none => []
  | some name => b.chapters.flatMap (chapterRowsOf name)

/-- The flat row list the importer accumulates (importKJV.js lines
60-93). -/
def parseRows (doc : BibleDoc) : List VerseRow :=
  doc.books.flatMap bookRowsOf

/-- The record returned by a successful import, importKJV.js lines
101-104. -/
structure ImportResult where
  verses : Nat
  books : Nat
  deriving DecidableEq, Repr

/-- `new Set(rows.map(r => r.book)).size` of importKJV.js line 103. -/
def distinctBookCount (rows : List VerseRow) : Nat :=
  (rows.map (fun r => r.book)).dedup.length

/-- importKJV.js importBibleFromXML (lines 45-105).  The input is the
optional parse tree (`none` models a DOMParser parsererror).  The store
is threaded through; both failure branches return it untouched, the
success branch bulk-upserts the accumulated rows. -/
def importBibleFromXML (parsed : Option BibleDoc) (store : VerseStore) :
    Except String ImportResult × VerseStore :=
  match parsed with
  | none => (Except.error "XML parse error. Your Bible XML may be malformed.", store)
  | some doc =>
    let rows := parseRows doc
    if rows.isEmpty then
      (Except.error "Importer found 0 verses. XML structure may differ from expected.",
       store)
    else
      (Except.ok { verses := rows.length, books := distinctBookCount rows },
       putMany store rows)

/-! ## Chapter fetch (providers.js getChapterFromStore, lines 1538-1541) -/

/-- db.js getAllByIndex on the by_book_chapter index: the records whose
book and chapter fields equal the requested index value. -/
def getAllByIndexBookChapter (s : VerseStore) (book : String) (chapter : Nat) :
    List VerseRow :=
  s.filter (fun r => r.book = book && r.chapter = chapter)

/-- The comparator of providers.js line 1540: `(a, b) => a.verse - b.verse`. -/
def verseLE (a b : VerseRow) : Prop := a.verse ≤ b.verse

instance : DecidableRel verseLE := fun a b => Nat.decLe a.verse b.verse

/-- providers.js getChapterFromStore (lines 1538-1541): fetch by the
(book, chapter) index and sort ascending by verse number. -/
def getChapterFromStore (s : VerseStore) (book : String) (chapter : Nat) :
    List VerseRow :=
  List.insertionSort verseLE (getAllByIndexBookChapter s book chapter)

/-! ## Verse styles (app.js upsertSelectedStyle, providers.js saveVerseStyle) -/

/-- One verse-style record, the shape built at app.js lines 1405-1418
plus the updatedAt stamp the merge adds. -/
structure StyleRecord where
  key : String
  translation : String
  book : String
  chapter : Nat
  verse : Nat
  color : String
  underline : Bool
  bold : Bool
  bookmarked : Bool
  note : String
  noteType : String
  noteFavorite : Bool
  updatedAt : Nat
  deriving DecidableEq, Repr

/-- A patch object passed to upsertSelectedStyle: each field is either
absent or supplies a new value; the JavaScript spread copies exactly the
present fields over the current record. -/
structure StylePatch where
  color : Option String := none
  underline : Option Bool := none
  bold : Option Bool := none
  bookmarked : Option Bool := none
  note : Option String := none
  noteType : Option String := none
  noteFavorite : Option Bool := none

/-- The default record synthesised at app.js lines 1405-1418 when no
style exists for the key.  The JavaScript object carries no updatedAt
field; the merge always stamps one before the record is used, so the
placeholder 0 here is never observable. -/
def defaultStyle (translation book : String) (chapter verse : Nat) : StyleRecord :=
  { key := verseStyleKey translation book chapter verse
    translation := translation
    book := book
    chapter := chapter
    verse := verse
    color := "none"
    underline := false
    bold := false
    bookmarked := false
    note := ""
    noteType := "study"
    noteFavorite := false
    updatedAt := 0 }

/-- `{ ...current, ...patch, updatedAt: Date.now() }` of app.js line
1420: shallow merge of the patch over the current record, then the
timestamp. -/
def applyPatch (cur : StyleRecord) (p : StylePatch) (now : Nat) : StyleRecord :=
  { cur with
    color := p.color.getD cur.color
    underline := p.underline.getD cur.underline
    bold := p.bold.getD cur.bold
    bookmarked := p.bookmarked.getD cur.bookmarked
    note := p.note.getD cur.note
    noteType := p.noteType.getD cur.noteType
    noteFavorite := p.noteFavorite.getD cur.noteFavorite
    updatedAt := now }

/-- The verse_styles object store, accessed point-wise by key. -/
abbrev StyleStore := String → Option StyleRecord

/-- providers.js saveVerseStyle (lines 1633-1638): put the record with a
fresh updatedAt stamp. -/
def saveVerseStyle (nowSave : Nat) (s : StyleStore) (style : StyleRecord) :
    StyleStore :=
  fun k => if k = style.key then some { style with updatedAt := nowSave } else s k

/-- The pieces of app.js state that the style upsert reads and writes:
the in-memory stylesMap cache and the verse_styles store. -/
structure StyleState where
  stylesMap : String → Option StyleRecord
  store : StyleStore

/-- app.js upsertSelectedStyle (lines 1398-1448), data part: read the
current record from the cache (or synthesise the default), shallow-merge
the patch, stamp updatedAt, save to the store (which stamps again) and
update the cache.  `now` is the Date.now() of the merge, `nowSave` the
Date.now() inside saveVerseStyle. -/
def upsertSelectedStyle (st : StyleState) (translation book : String)
    (chapter verse : Nat) (patch : StylePatch) (now nowSave : Nat) : StyleState :=
  let key := verseStyleKey translation book chapter verse
  let current := (st.stylesMap key).getD (defaultStyle translation book chapter verse)
  let next := applyPatch current patch now
  { stylesMap := fun k => if k = key then some next else st.stylesMap k
    store := saveVerseStyle nowSave st.store next }

/-- The render-time join of app.js lines 1008-1012: each verse is paired
with the style found in the chapter style map under the derived
verse-style key (or nothing). -/
def attachStyles (translation : String) (stylesMap : String → Option StyleRecord)
    (verses : List VerseRow) : List (VerseRow × Option StyleRecord) :=
  verses.map (fun v => (v, stylesMap (verseStyleKey translation v.book v.chapter v.verse)))

/-! ## Chapter bookmarks (providers.js toggleBookmark, lines 1604-1622) -/

/-- One chapter bookmark record, providers.js lines 1613-1619. -/
structure BookmarkRecord where
  key : String
  translation : String
  book : String
  chapter : Nat
  savedAt : Nat
  deriving DecidableEq, Repr

/-- The bookmarks object store, accessed point-wise by key. -/
abbrev BookmarkStore := String → Option BookmarkRecord

/-- providers.js toggleBookmark (lines 1604-1622): delete and report
false when a record exists at the derived key, otherwise create one with
savedAt = now and report true. -/
def toggleBookmark (s : BookmarkStore) (translation book : String)
    (chapter : Nat) (now : Nat) : Bool × BookmarkStore :=
  let key := bookmarkKey translation book chapter
  match s key with
  | some _ => (false, fun k => if k = key then none else s k)
  | none =>
    (true, fun k =>
      if k = key then
        some { key := key, translation := translation, book := book,
               chapter := chapter, savedAt := now }
      else s k)

/-! ## Settings (providers.js saveSetting and loadSetting, lines 1666-1673) -/

/-- One settings record, providers.js line 1667: `{ key, value }`. -/
structure SettingRecord where
  key : String
  value : String
  deriving DecidableEq, Repr

/-- The settings object store, accessed point-wise by key. -/
abbrev SettingsStore := String → Option SettingRecord

/-- providers.js saveSetting (lines 1666-1668): put `{ key, value }`. -/
def saveSetting (s : SettingsStore) (key value : String) : SettingsStore :=
  fun k => if k = key then some { key := key, value := value } else s k

/-- providers.js loadSetting (lines 1670-1673): `row ? row.value : null`,
with `none` standing for null. -/
def loadSetting (s : SettingsStore) (key : String) : Option String :=
  match s key with
  | some row => some row.value
  | none => none

/-- A settings store with nothing saved. -/
def emptySettings : SettingsStore := fun _ => none

/-! ## Concrete fixtures used by witnesses and counterexamples -/

/-- A two-verse, one-book source document. -/
def demoDoc : BibleDoc :=
  { books := [
      { number := some 1,
        chapters := [
          { number := some 1,
            verses := [
              { number := some 1, text := "In the  beginning" },
              { number := some 2, text := "And the earth" }] }] }] }

/-- The first verse row demoDoc imports. -/
def demoRowA : VerseRow :=
  { key := "Genesis|1|1", book := "Genesis", chapter := 1, verse := 1,
    text := "In the beginning" }

/-- The second verse row demoDoc imports. -/
def demoRowB : VerseRow :=
  { key := "Genesis|1|2", book := "Genesis", chapter := 1, verse := 2,
    text := "And the earth" }

/-- A stored verse-style record for KJV Genesis 1:1. -/
def demoStyle : StyleRecord :=
  { key := verseStyleKey "KJV" "Genesis" 1 1, translation := "KJV",
    book := "Genesis", chapter := 1, verse := 1, color := "gold",
    underline := false, bold := false, bookmarked := true, note := "x",
    noteType := "study", noteFavorite := false, updatedAt := 7 }

/-- App style state with an empty cache and an empty verse_styles store. -/
def emptyStyleState : StyleState :=
  { stylesMap := fun _ => none, store := fun _ => none }

/-- A bookmarks store with nothing saved. -/
def emptyBookmarks : BookmarkStore := fun _ => none

end Nightlamp

namespace Nightlamp

/-! # Proof development -/

/-! ## Generic facts about the sorted keyed store -/

theorem keyLtb_iff (a b : String) : keyLtb a b = true ↔ a < b := by
  unfold keyLtb
  rw [decide_eq_true_iff]
  exact String.lt_iff_toList_lt.symm

theorem getOne_put (s : VerseStore) (r : VerseRow) (k : String) :
    getOne (put s r) k = if k = r.key then some r else getOne s k := by
  induction s with
  | nil =>
    by_cases h : k = r.key
    · simp [put, getOne, h]
    · simp [put, getOne, h, Ne.symm h]
  | cons x xs ih =>
    by_cases hlt : keyLtb r.key x.key = true
    · rw [put, if_pos hlt]
      by_cases h : k = r.key
      · simp [getOne, h]
      · simp only [getOne] at *
        rw [List.find?_cons_of_neg _ (by simp [Ne.symm h]), if_neg h]
    · by_cases heq : r.key = x.key
      · rw [put, if_neg hlt, if_pos heq]
        by_cases h : k = r.key
        · simp [getOne, h]
        · simp only [getOne] at *
          rw [List.find?_cons_of_neg _ (by simp [Ne.symm h]),
            List.find?_cons_of_neg _ (by simp [heq ▸ Ne.symm h]), if_neg h]
      · rw [put, if_neg hlt, if_neg heq]
        by_cases hx : x.key = k
        · have hkr : ¬ k = r.key := fun hc => heq (by rw [hc] at hx; exact hx.symm)
          simp only [getOne] at *
          rw [List.find?_cons_of_pos _ (by simp [hx]),
            List.find?_cons_of_pos _ (by simp [hx]), if_neg hkr]
        · simp only [getOne] at *
          rw [List.find?_cons_of_neg _ (by simp [hx]),
            List.find?_cons_of_neg _ (by simp [hx])]
          exact ih

theorem mem_put {s : VerseStore} {r y : VerseRow} (h : y ∈ put s r) :
    y = r ∨ y ∈ s := by
  induction s with
  | nil =>
    rw [put] at h
    exact Or.inl (List.mem_singleton.mp h)
  | cons x xs ih =>
    by_cases hlt : keyLtb r.key x.key = true
    · rw [put, if_pos hlt, List.mem_cons] at h
      rcases h with h | h
      · exact Or.inl h
      · exact Or.inr h
    · by_cases heq : r.key = x.key
      · rw [put, if_neg hlt, if_pos heq, List.mem_cons] at h
        rcases h with h | h
        · exact Or.inl h
        · exact Or.inr (List.mem_cons_of_mem _ h)
      · rw [put, if_neg hlt, if_neg heq, List.mem_cons] at h
        rcases h with h | h
        · exact Or.inr (h ▸ List.mem_cons_self _ _)
        · rcases ih h with h2 | h2
          · exact Or.inl h2
          · exact Or.inr (List.mem_cons_of_mem _ h2)

theorem put_sorted (r : VerseRow) :
    ∀ {s : VerseStore}, SortedKeys s → SortedKeys (put s r) := by
  intro s
  induction s with
  | nil =>
    intro _
    rw [put]
    exact List.pairwise_singleton _ _
  | cons x xs ih =>
    intro hs
    obtain ⟨hx, hxs⟩ := List.pairwise_cons.mp hs
    by_cases hlt : keyLtb r.key x.key = true
    · rw [put, if_pos hlt]
      have hrx : r.key < x.key := (keyLtb_iff _ _).mp hlt
      refine List.pairwise_cons.mpr ⟨?_, List.pairwise_cons.mpr ⟨hx, hxs⟩⟩
      intro y hy
      rcases List.mem_cons.mp hy with h | h
      · rw [h]; exact hrx
      · exact lt_trans hrx (hx y h)
    · by_cases heq : r.key = x.key
      · rw [put, if_neg hlt, if_pos heq]
        exact List.pairwise_cons.mpr ⟨fun y hy => heq ▸ hx y hy, hxs⟩
      · rw [put, if_neg hlt, if_neg heq]
        have hxr : x.key < r.key := by
          have h1 : ¬ r.key < x.key := fun hc => hlt ((keyLtb_iff _ _).mpr hc)
          exact lt_of_le_of_ne (le_of_not_lt h1) (fun he => heq he.symm)
        refine List.pairwise_cons.mpr ⟨?_, ih hxs⟩
        intro y hy
        rcases mem_put hy with h | h
        · rw [h]; exact hxr
        · exact hx y h

theorem putMany_sorted (rows : List VerseRow) :
    ∀ {s : VerseStore}, SortedKeys s → SortedKeys (putMany s rows) := by
  induction rows with
  | nil => intro s hs; exact hs
  | cons r rest ih => intro s hs; exact ih (put_sorted r hs)

theorem getOne_putMany (rows : List VerseRow) :
    ∀ (s : VerseStore) (k : String),
      getOne (putMany s rows) k = (lookupLast rows k).or (getOne s k) := by
  induction rows with
  | nil =>
    intro s k
    simp [putMany, lookupLast, Option.or]
  | cons r rest ih =>
    intro s k
    have h1 : putMany s (r :: rest) = putMany (put s r) rest := rfl
    rw [h1, ih]
    have h2 : lookupLast (r :: rest) k =
        (lookupLast rest k).or (List.find? (fun r2 => r2.key = k) [r]) := by
      rw [lookupLast, List.reverse_cons, List.find?_append]
      rfl
    rw [h2, Option.or_assoc]
    congr 1
    rw [getOne_put]
    by_cases h : k = r.key
    · rw [List.find?_cons_of_pos _ (by simp [h]), if_pos h]
      rfl
    · rw [List.find?_cons_of_neg _ (by simp [Ne.symm h]), if_neg h]
      rfl

theorem store_ext : ∀ (s t : VerseStore), SortedKeys s → SortedKeys t →
    (∀ k, getOne s k = getOne t k) → s = t := by
  intro s
  induction s with
  | nil =>
    intro t _ _ h
    cases t with
    | nil => rfl
    | cons y ys =>
      exfalso
      have h1 := h y.key
      rw [getOne, getOne, List.find?_cons_of_pos _ (by simp)] at h1
      simp at h1
  | cons x xs ih =>
    intro t hs ht h
    cases t with
    | nil =>
      exfalso
      have h1 := h x.key
      rw [getOne, getOne, List.find?_cons_of_pos _ (by simp)] at h1
      simp at h1
    | cons y ys =>
      obtain ⟨hx, hxs⟩ := List.pairwise_cons.mp hs
      obtain ⟨hy, hys⟩ := List.pairwise_cons.mp ht
      have hxy : x = y := by
        by_cases hks : y.key = x.key
        · have h1 := h x.key
          rw [getOne, List.find?_cons_of_pos _ (by simp)] at h1
          rw [getOne, List.find?_cons_of_pos _ (by simp [hks])] at h1
          exact Option.some.inj h1
        · have h1 := h x.key
          rw [getOne, List.find?_cons_of_pos _ (by simp)] at h1
          rw [getOne, List.find?_cons_of_neg _ (by simp [hks])] at h1
          have hmem : x ∈ ys := List.mem_of_find?_eq_some h1.symm
          have hylt : y.key < x.key := hy x hmem
          have hks2 : ¬ x.key = y.key := fun hc => hks hc.symm
          have h2 := h y.key
          rw [getOne, List.find?_cons_of_neg _ (by simp [hks2])] at h2
          rw [getOne, List.find?_cons_of_pos _ (by simp)] at h2
          have hmem2 : y ∈ xs := List.mem_of_find?_eq_some h2
          have hxlt : x.key < y.key := hx y hmem2
          exact absurd hxlt (not_lt_of_gt hylt)
      subst hxy
      have h3 : ∀ k, getOne xs k = getOne ys k := by
        intro k
        by_cases hk : k = x.key
        · subst hk
          have e1 : getOne xs x.key = none := by
            rw [getOne, List.find?_eq_none]
            intro a ha
            simp only [decide_eq_true_eq]
            exact ne_of_gt (hx a ha)
          have e2 : getOne ys x.key = none := by
            rw [getOne, List.find?_eq_none]
            intro a ha
            simp only [decide_eq_true_eq]
            exact ne_of_gt (hy a ha)
          rw [e1, e2]
        · have h4 := h k
          rw [getOne, List.find?_cons_of_neg _ (by simp [Ne.symm hk])] at h4
          rw [getOne, List.find?_cons_of_neg _ (by simp [Ne.symm hk])] at h4
          exact h4
      rw [ih ys hxs hys h3]

theorem putMany_idem {s : VerseStore} (hs : SortedKeys s) (rows : List VerseRow) :
    putMany (putMany s rows) rows = putMany s rows := by
  apply store_ext _ _ (putMany_sorted rows (putMany_sorted rows hs)) (putMany_sorted rows hs)
  intro k
  rw [getOne_putMany, getOne_putMany]
  cases hl : lookupLast rows k
  · rfl
  · rfl

theorem put_perm {r : VerseRow} :
    ∀ {s : VerseStore}, getOne s r.key = none → List.Perm (put s r) (r :: s) := by
  intro s
  induction s with
  | nil =>
    intro _
    rw [put]
  | cons x xs ih =>
    intro h
    by_cases hlt : keyLtb r.key x.key = true
    · rw [put, if_pos hlt]
    · by_cases heq : r.key = x.key
      · exfalso
        rw [getOne, List.find?_cons_of_pos _ (by simp [heq.symm])] at h
        exact Option.noConfusion h
      · rw [put, if_neg hlt, if_neg heq]
        have h2 : getOne xs r.key = none := by
          rw [getOne] at h
          rw [List.find?_cons_of_neg _
            (by simp only [decide_eq_true_eq]; exact fun hc => heq hc.symm)] at h
          exact h
        exact List.Perm.trans ((ih h2).cons x) (List.Perm.swap r x xs)

theorem putMany_perm : ∀ (rows : List VerseRow) (s : VerseStore),
    (∀ r ∈ rows, getOne s r.key = none) →
    ((rows.map (fun r => r.key)).Nodup) →
    List.Perm (putMany s rows) (s ++ rows) := by
  intro rows
  induction rows with
  | nil =>
    intro s _ _
    simp [putMany]
  | cons r rest ih =>
    intro s h hn
    rw [List.map_cons, List.nodup_cons] at hn
    have hput := put_perm (h r (List.mem_cons_self _ _))
    have hrest : ∀ q ∈ rest, getOne (put s r) q.key = none := by
      intro q hq
      rw [getOne_put]
      have hne : ¬ q.key = r.key := by
        intro he
        exact hn.1 (he ▸ List.mem_map_of_mem (fun r2 => r2.key) hq)
      rw [if_neg hne]
      exact h q (List.mem_cons_of_mem _ hq)
    have hmain := ih (put s r) hrest hn.2
    have e1 : putMany s (r :: rest) = putMany (put s r) rest := rfl
    rw [e1]
    refine List.Perm.trans hmain ?_
    refine List.Perm.trans (hput.append_right rest) ?_
    exact List.perm_middle.symm

/-! ## The cursor search loop -/

theorem searchLoop_eq (q : String) (limit : Nat) :
    ∀ (rest hits : List VerseRow), hits.length ≤ limit →
      searchLoop q limit hits rest =
        hits ++ (rest.filter (searchMatch q)).take (limit - hits.length) := by
  intro rest
  induction rest with
  | nil =>
    intro hits _
    simp [searchLoop]
  | cons r rest ih =>
    intro hits h
    by_cases hfull : limit ≤ hits.length
    · have he : limit = hits.length := le_antisymm hfull h
      rw [searchLoop, if_pos hfull, he, Nat.sub_self]
      simp
    · rw [searchLoop, if_neg hfull]
      by_cases hm : searchMatch q r = true
      · rw [if_pos hm]
        have hlen : (hits ++ [r]).length ≤ limit := by
          rw [List.length_append]
          simp only [List.length_singleton]
          omega
        rw [ih (hits ++ [r]) hlen]
        rw [List.filter_cons, if_pos hm]
        obtain ⟨m, hm2⟩ : ∃ m, limit - hits.length = m + 1 :=
          ⟨limit - hits.length - 1, by omega⟩
        rw [hm2, List.take_succ_cons]
        have hm3 : limit - (hits ++ [r]).length = m := by
          rw [List.length_append]
          simp only [List.length_singleton]
          omega
        rw [hm3, List.append_assoc]
        rfl
      · rw [if_neg hm, ih hits h, List.filter_cons, if_neg hm]

/-! ## The whitespace normaliser matches its specification -/

theorem replaceNbsp_collapseWsAux (b : Bool) (l : List Char) :
    (collapseWsAux b l).map (fun c => if c = Char.ofNat 0xA0 then ' ' else c) =
      collapseWsAux b l := by
  induction l generalizing b with
  | nil => rfl
  | cons c rest ih =>
    by_cases hw : isJsWs c = true
    · rw [collapseWsAux, if_pos hw]
      cases b with
      | true => simpa using ih true
      | false =>
        have hsp : ¬ (' ' = Char.ofNat 0xA0) := by decide
        simp [List.map_cons, hsp, ih true]
    · rw [collapseWsAux, if_neg hw]
      have hc : ¬ (c = Char.ofNat 0xA0) := by
        intro he
        apply hw
        rw [he]
        decide
      simp [List.map_cons, hc, ih false]

theorem normalizeWhitespace_eq_spec (s : String) :
    normalizeWhitespace s = specNormalize s :=
  congrArg jsTrim (congrArg String.mk (replaceNbsp_collapseWsAux false s.data))

/-! ## Order facts for the chapter sort -/

instance : IsTotal VerseRow verseLE :=
  ⟨fun a b => Nat.le_total a.verse b.verse⟩

instance : IsTrans VerseRow verseLE :=
  ⟨fun _ _ _ h1 h2 => Nat.le_trans h1 h2⟩

/-! # The claims -/

/-- Claim C10: saving a setting and then loading that key returns exactly
the saved string; a repeated save to the same key is last-write-wins; and
loading a key that was never saved returns null (none), not an error. -/
theorem settings_roundtrip (s : SettingsStore) (k v v2 : String) :
    loadSetting (saveSetting s k v) k = some v ∧
    loadSetting (saveSetting (saveSetting s k v) k v2) k = some v2 ∧
    loadSetting emptySettings k = none := by
  refine ⟨?_, ?_, rfl⟩
  · simp [loadSetting, saveSetting]
  · simp [loadSetting, saveSetting]

/-- Claim C5: with no record at the derived key the toggle creates a
bookmark with savedAt = now and reports true (added); with a record
present it deletes it and reports false (removed); three sequential
toggles from the absent state report added, removed, added; and a toggle
changes no key other than the derived key, so at most one bookmark record
can ever exist per (translation, book, chapter). -/
theorem toggleBookmark_spec (s : BookmarkStore) (t b : String) (c : Nat)
    (n1 n2 n3 : Nat) (h : s (bookmarkKey t b c) = none) :
    (toggleBookmark s t b c n1).1 = true ∧
    (toggleBookmark s t b c n1).2 (bookmarkKey t b c) =
      some { key := bookmarkKey t b c, translation := t, book := b,
             chapter := c, savedAt := n1 } ∧
    (toggleBookmark (toggleBookmark s t b c n1).2 t b c n2).1 = false ∧
    (toggleBookmark (toggleBookmark s t b c n1).2 t b c n2).2 (bookmarkKey t b c) = none ∧
    (toggleBookmark (toggleBookmark (toggleBookmark s t b c n1).2 t b c n2).2
        t b c n3).1 = true ∧
    (∀ s2 : BookmarkStore, ∀ r : BookmarkRecord, s2 (bookmarkKey t b c) = some r →
      (toggleBookmark s2 t b c n1).1 = false ∧
      (toggleBookmark s2 t b c n1).2 (bookmarkKey t b c) = none) ∧
    (∀ k, ¬ k = bookmarkKey t b c → (toggleBookmark s t b c n1).2 k = s k) := by
  refine ⟨?_, ?_, ?_, ?_, ?_, ?_, ?_⟩
  · simp [toggleBookmark, h]
  · simp [toggleBookmark, h]
  · simp [toggleBookmark, h]
  · simp [toggleBookmark, h]
  · simp [toggleBookmark, h]
  · intro s2 r h2
    constructor
    · simp [toggleBookmark, h2]
    · simp [toggleBookmark, h2]
  · intro k hk
    simp [toggleBookmark, h, hk]

/-- Witness for C5 at a concrete store and locator. -/
theorem toggleBookmark_spec_witness :
    emptyBookmarks (bookmarkKey "KJV" "Genesis" 1) = none ∧
    (toggleBookmark emptyBookmarks "KJV" "Genesis" 1 10).1 = true ∧
    (toggleBookmark (toggleBookmark emptyBookmarks "KJV" "Genesis" 1 10).2
        "KJV" "Genesis" 1 20).1 = false ∧
    (toggleBookmark (toggleBookmark (toggleBookmark emptyBookmarks
        "KJV" "Genesis" 1 10).2 "KJV" "Genesis" 1 20).2 "KJV" "Genesis" 1 30).1 = true := by
  have h := toggleBookmark_spec emptyBookmarks "KJV" "Genesis" 1 10 20 30 rfl
  exact ⟨rfl, h.1, h.2.2.1, h.2.2.2.2.1⟩

/-- Claim C7: a document that is not well-formed XML makes the import
fail with the parse error, and a well-formed document yielding zero verse
rows makes it fail with the zero-verses error; in both cases the target
collection is returned exactly as it was, untouched. -/
theorem import_fails_without_write (s : VerseStore) (doc : BibleDoc)
    (hz : parseRows doc = []) :
    importBibleFromXML none s =
      (Except.error "XML parse error. Your Bible XML may be malformed.", s) ∧
    importBibleFromXML (some doc) s =
      (Except.error "Importer found 0 verses. XML structure may differ from expected.",
        s) := by
  constructor
  · rfl
  · simp [importBibleFromXML, hz]

/-- Witness for C7 at a concrete empty document and nonempty store. -/
theorem import_fails_without_write_witness :
    parseRows { books := [] } = [] ∧
    importBibleFromXML none [demoRowA] =
      (Except.error "XML parse error. Your Bible XML may be malformed.", [demoRowA]) ∧
    importBibleFromXML (some { books := [] }) [demoRowA] =
      (Except.error "Importer found 0 verses. XML structure may differ from expected.",
        [demoRowA]) := by
  have h := import_fails_without_write [demoRowA] { books := [] } rfl
  exact ⟨rfl, h.1, h.2⟩

/-- Claim C3: upserting a style for a locator with no prior record
synthesises the default record (color none, no bold, no underline, not
bookmarked, empty note, noteType study, not favorite), shallow-merges the
patch over it and stamps updatedAt before writing; and after the two
sequential upserts bookmarked := true then note := "x" on the same
locator, the stored record has both bookmarked = true and note = "x". -/
theorem upsertStyle_defaults_merge (st : StyleState) (t b : String) (c v : Nat)
    (patch : StylePatch) (n1 n2 n3 n4 : Nat)
    (h : st.stylesMap (verseStyleKey t b c v) = none) :
    (defaultStyle t b c v).color = "none" ∧
    (defaultStyle t b c v).bold = false ∧
    (defaultStyle t b c v).underline = false ∧
    (defaultStyle t b c v).bookmarked = false ∧
    (defaultStyle t b c v).note = "" ∧
    (defaultStyle t b c v).noteType = "study" ∧
    (defaultStyle t b c v).noteFavorite = false ∧
    (upsertSelectedStyle st t b c v patch n1 n2).store (verseStyleKey t b c v) =
      some { applyPatch (defaultStyle t b c v) patch n1 with updatedAt := n2 } ∧
    ((upsertSelectedStyle (upsertSelectedStyle st t b c v
          { bookmarked := some true } n1 n2) t b c v
          { note := some "x" } n3 n4).store (verseStyleKey t b c v)).map
        (fun rec => (rec.bookmarked, rec.note)) = some (true, "x") := by
  refine ⟨rfl, rfl, rfl, rfl, rfl, rfl, rfl, ?_, ?_⟩
  · simp [upsertSelectedStyle, saveVerseStyle, h, applyPatch, defaultStyle]
  · simp [upsertSelectedStyle, saveVerseStyle, h, applyPatch, defaultStyle]

/-- Witness for C3 at a concrete empty state and patches. -/
theorem upsertStyle_defaults_merge_witness :
    emptyStyleState.stylesMap (verseStyleKey "KJV" "Genesis" 1 1) = none ∧
    ((upsertSelectedStyle (upsertSelectedStyle emptyStyleState "KJV" "Genesis" 1 1
          { bookmarked := some true } 1 2) "KJV" "Genesis" 1 1
          { note := some "x" } 3 4).store (verseStyleKey "KJV" "Genesis" 1 1)).map
        (fun rec => (rec.bookmarked, rec.note)) = some (true, "x") :=
  ⟨rfl, (upsertStyle_defaults_merge emptyStyleState "KJV" "Genesis" 1 1
      { bold := some true } 1 2 3 4 rfl).2.2.2.2.2.2.2.2⟩

/-- Claim C1 as frozen is false on the code: the verse-style record key is
the translation-prefixed key "KJV|Genesis|1|1" while the TextUnit written
by the importer for the same verse has key "Genesis|1|1"; the keys are
not equal. -/
theorem annotationKey_ne_textUnitKey :
    Option.map VerseRow.key
        (getOne (importBibleFromXML (some demoDoc) []).2 "Genesis|1|1") =
      some "Genesis|1|1" ∧
    Option.map StyleRecord.key
        ((upsertSelectedStyle emptyStyleState "KJV" "Genesis" 1 1
            { bookmarked := some true } 1 2).store
          (verseStyleKey "KJV" "Genesis" 1 1)) = some "KJV|Genesis|1|1" ∧
    ¬ (("KJV|Genesis|1|1" : String) = "Genesis|1|1") := by
  refine ⟨rfl, rfl, by decide⟩

/-- Claim C1 amended: the verse-style key is not equal to the TextUnit
key; it is the TextUnit key prefixed with the translation (the collection
discriminator) and the delimiter, and the render-time join is still a
direct O(1) lookup by that derived key: a style map holding the record
under its key yields exactly that record for the verse it decorates. -/
theorem annotationKey_prefixes_textUnitKey (t b : String) (c v : Nat)
    (m : String → Option StyleRecord) (a : StyleRecord) (row : VerseRow)
    (ha : a.key = verseStyleKey t b c v)
    (hm : m a.key = some a)
    (hb : row.book = b) (hc : row.chapter = c) (hv : row.verse = v) :
    verseStyleKey t b c v = t ++ "|" ++ mkVerseKey b c v ∧
    attachStyles t m [row] = [(row, some a)] := by
  constructor
  · rw [verseStyleKey, mkVerseKey]
    simp [String.append_assoc]
  · rw [attachStyles]
    simp only [List.map_cons, List.map_nil]
    rw [hb, hc, hv, ← ha, hm]

/-- Witness for the amended C1 at a concrete record, map and row. -/
theorem annotationKey_prefixes_textUnitKey_witness :
    demoStyle.key = verseStyleKey "KJV" "Genesis" 1 1 ∧
    verseStyleKey "KJV" "Genesis" 1 1 = "KJV" ++ "|" ++ mkVerseKey "Genesis" 1 1 ∧
    attachStyles "KJV" (fun k => if k = demoStyle.key then some demoStyle else none)
        [demoRowA] = [(demoRowA, some demoStyle)] := by
  have h := annotationKey_prefixes_textUnitKey "KJV" "Genesis" 1 1
    (fun k => if k = demoStyle.key then some demoStyle else none) demoStyle demoRowA
    rfl (by simp) rfl rfl rfl
  exact ⟨rfl, h.1, h.2⟩

/-- Claim C2: when the trimmed lower-cased query is nonempty, search
returns exactly the records whose lower-cased text field contains it,
collected in primary-key visitation order and truncated to the cap (the
result length is min of cap and the match count), and a transaction is
opened; when the query trims to empty, search returns the empty list
without opening a storage transaction. -/
theorem searchTextCursor_spec (s : VerseStore) (query : String) (cap : Nat) :
    ((jsToLower (jsTrim query)).isEmpty = true →
        searchTextCursor s query cap = ([], false)) ∧
    ((jsToLower (jsTrim query)).isEmpty = false →
        searchTextCursor s query cap =
          ((s.filter (searchMatch (jsToLower (jsTrim query)))).take cap, true) ∧
        (searchTextCursor s query cap).1.length =
          min cap (s.filter (searchMatch (jsToLower (jsTrim query)))).length) := by
  constructor
  · intro he
    rw [searchTextCursor]
    simp [he]
  · intro he
    have h1 : searchTextCursor s query cap =
        (searchLoop (jsToLower (jsTrim query)) cap [] s, true) := by
      rw [searchTextCursor]
      simp [he]
    have h2 : searchLoop (jsToLower (jsTrim query)) cap [] s =
        (s.filter (searchMatch (jsToLower (jsTrim query)))).take cap := by
      have h3 := searchLoop_eq (jsToLower (jsTrim query)) cap s [] (Nat.zero_le _)
      simpa using h3
    constructor
    · rw [h1, h2]
    · rw [h1]
      simp only [h2, List.length_take]

/-- Witness for C2: a whitespace-only query and a capped query on a
concrete two-row store. -/
theorem searchTextCursor_spec_witness :
    (jsToLower (jsTrim "   ")).isEmpty = true ∧
    searchTextCursor [demoRowA, demoRowB] "   " 5 = ([], false) ∧
    (jsToLower (jsTrim "  THE  ")).isEmpty = false ∧
    searchTextCursor [demoRowA, demoRowB] "  THE  " 1 = ([demoRowA], true) := by
  have h1 := (searchTextCursor_spec [demoRowA, demoRowB] "   " 5).1 rfl
  have h2 := (searchTextCursor_spec [demoRowA, demoRowB] "  THE  " 1).2 rfl
  refine ⟨rfl, h1, rfl, ?_⟩
  rw [h2.1]
  rfl

/-- Claim C4: the chapter fetch returns a permutation of exactly the
records of the requested (book, chapter), in strictly ascending
verse-number order, for every store satisfying the IndexedDB sorted-key
invariant whose rows carry the importer key shape; an empty index fetch
yields the valid empty list, never an error. -/
theorem getChapter_sorted_spec (s : VerseStore) (book : String) (chapter : Nat)
    (hs : SortedKeys s)
    (hwf : ∀ r ∈ s, r.key = mkVerseKey r.book r.chapter r.verse) :
    List.Perm (getChapterFromStore s book chapter)
      (getAllByIndexBookChapter s book chapter) ∧
    List.Pairwise (fun a b => a.verse < b.verse) (getChapterFromStore s book chapter) ∧
    (getAllByIndexBookChapter s book chapter = [] →
      getChapterFromStore s book chapter = []) := by
  have hperm : List.Perm (getChapterFromStore s book chapter)
      (getAllByIndexBookChapter s book chapter) :=
    List.perm_insertionSort verseLE _
  refine ⟨hperm, ?_, ?_⟩
  · have hle : List.Sorted verseLE (getChapterFromStore s book chapter) :=
      List.sorted_insertionSort verseLE _
    have hkeys : List.Pairwise (fun a b : VerseRow => ¬ a.key = b.key)
        (getAllByIndexBookChapter s book chapter) :=
      (hs.imp (fun h => ne_of_lt h)).filter _
    have hne : List.Pairwise (fun a b : VerseRow => ¬ a.verse = b.verse)
        (getAllByIndexBookChapter s book chapter) := by
      refine List.Pairwise.imp_of_mem ?_ hkeys
      intro a b ha hb hab hv
      apply hab
      have ha2 := List.mem_filter.mp ha
      have hb2 := List.mem_filter.mp hb
      have ha3 : a.book = book ∧ a.chapter = chapter := by
        have h4 := ha2.2
        simp only [Bool.and_eq_true, decide_eq_true_eq] at h4
        exact h4
      have hb3 : b.book = book ∧ b.chapter = chapter := by
        have h4 := hb2.2
        simp only [Bool.and_eq_true, decide_eq_true_eq] at h4
        exact h4
      rw [hwf a ha2.1, hwf b hb2.1, ha3.1, ha3.2, hb3.1, hb3.2, hv]
    have hne2 : List.Pairwise (fun a b : VerseRow => ¬ a.verse = b.verse)
        (getChapterFromStore s book chapter) :=
      (List.Perm.pairwise_iff (fun h he => h he.symm) hperm).mpr hne
    exact (List.Pairwise.and hle hne2).imp (fun h => lt_of_le_of_ne h.1 h.2)
  · intro he
    rw [getChapterFromStore, he]
    rfl

/-- Witness for C4 on a concrete sorted two-row store. -/
theorem getChapter_sorted_spec_witness :
    SortedKeys [demoRowA, demoRowB] ∧
    (∀ r ∈ [demoRowA, demoRowB], r.key = mkVerseKey r.book r.chapter r.verse) ∧
    List.Pairwise (fun a b => a.verse < b.verse)
      (getChapterFromStore [demoRowA, demoRowB] "Genesis" 1) := by
  have hs : SortedKeys [demoRowA, demoRowB] := by
    refine List.pairwise_cons.mpr ⟨?_, List.pairwise_singleton _ _⟩
    intro y hy
    rw [List.mem_singleton.mp hy]
    exact (keyLtb_iff _ _).mp (by decide)
  have hwf : ∀ r ∈ [demoRowA, demoRowB], r.key = mkVerseKey r.book r.chapter r.verse := by
    intro r hr
    rcases List.mem_cons.mp hr with h | h
    · rw [h]
      rfl
    · rw [List.mem_singleton.mp h]
      rfl
  exact ⟨hs, hwf, (getChapter_sorted_spec [demoRowA, demoRowB] "Genesis" 1 hs hwf).2.1⟩

/-- Claim C6: importing the same document a second time into the store
produced by a first import into an initially empty collection returns the
same result record and leaves the collection with exactly the same
contents (hence the same row count); the bulk upsert is keyed by locator,
so the row count never doubles. -/
theorem import_idempotent (doc : BibleDoc) (res : ImportResult) (s1 : VerseStore)
    (h : importBibleFromXML (some doc) [] = (Except.ok res, s1)) :
    importBibleFromXML (some doc) s1 = (Except.ok res, s1) := by
  rcases Bool.eq_false_or_eq_true (parseRows doc).isEmpty with he | he
  · exfalso
    simp only [importBibleFromXML, he, if_true] at h
    exact Except.noConfusion (congrArg Prod.fst h)
  · simp only [importBibleFromXML, he, Bool.false_eq_true, if_false] at h
    rw [Prod.mk.injEq] at h
    obtain ⟨h1, h2⟩ := h
    have hrows : putMany s1 (parseRows doc) = s1 := by
      rw [← h2]
      exact putMany_idem List.Pairwise.nil (parseRows doc)
    simp only [importBibleFromXML, he, Bool.false_eq_true, if_false]
    rw [Prod.mk.injEq]
    exact ⟨h1, hrows⟩

/-- Witness for C6: importing the demo document twice gives the same
store as importing it once. -/
theorem import_idempotent_witness :
    importBibleFromXML (some demoDoc) [] =
      (Except.ok { verses := 2, books := 1 }, [demoRowA, demoRowB]) ∧
    importBibleFromXML (some demoDoc) [demoRowA, demoRowB] =
      (Except.ok { verses := 2, books := 1 }, [demoRowA, demoRowB]) := by
  have h : importBibleFromXML (some demoDoc) [] =
      (Except.ok { verses := 2, books := 1 }, [demoRowA, demoRowB]) := rfl
  exact ⟨h, import_idempotent demoDoc _ _ h⟩

/-- Claim C8: the importer skips, without error, a verse whose ordinal is
missing or zero or whose normalised text is empty; skips entirely a book
whose ordinal has no canonical-name mapping; the text normalisation
collapses every run of whitespace (including the no-break space) to a
single ASCII space and trims both ends; and a kept verse carries exactly
the normalised text. -/
theorem import_skip_normalize_spec :
    (∀ s, normalizeWhitespace s = specNormalize s) ∧
    (∀ (name : String) (c : Nat) (v : VerseNode), v.number = none →
        verseRowsOf name c v = []) ∧
    (∀ (name : String) (c : Nat) (v : VerseNode), v.number = some 0 →
        verseRowsOf name c v = []) ∧
    (∀ (name : String) (c : Nat) (v : VerseNode),
        (normalizeWhitespace v.text).isEmpty = true → verseRowsOf name c v = []) ∧
    (∀ b : BookNode, bookNameFor b.number = none → bookRowsOf b = []) ∧
    (∀ (name : String) (c : Nat) (v : VerseNode) (n : Nat), v.number = some n →
        ¬ n = 0 → (normalizeWhitespace v.text).isEmpty = false →
        verseRowsOf name c v =
          [{ key := mkVerseKey name c n, book := name, chapter := c,
             verse := n, text := normalizeWhitespace v.text }]) := by
  refine ⟨normalizeWhitespace_eq_spec, ?_, ?_, ?_, ?_, ?_⟩
  · intro name c v h
    simp [verseRowsOf, h]
  · intro name c v h
    simp [verseRowsOf, h]
  · intro name c v h
    cases hn : v.number with
    | none => simp [verseRowsOf, hn]
    | some n =>
      by_cases h0 : n = 0
      · simp [verseRowsOf, hn, h0]
      · simp [verseRowsOf, hn, h0, h]
  · intro b h
    simp [bookRowsOf, h]
  · intro name c v n h h0 ht
    simp [verseRowsOf, h, h0, ht]

/-- Witness for C8 at concrete verse and book nodes. -/
theorem import_skip_normalize_spec_witness :
    normalizeWhitespace " a  b " = specNormalize " a  b " ∧
    verseRowsOf "Genesis" 1 { number := none, text := "abc" } = [] ∧
    verseRowsOf "Genesis" 1 { number := some 0, text := "abc" } = [] ∧
    verseRowsOf "Genesis" 1 { number := some 3, text := "   " } = [] ∧
    bookRowsOf { number := some 99, chapters := [] } = [] ∧
    verseRowsOf "Genesis" 1 { number := some 3, text := " a  b " } =
      [{ key := mkVerseKey "Genesis" 1 3, book := "Genesis", chapter := 1,
         verse := 3, text := normalizeWhitespace " a  b " }] := by
  refine ⟨import_skip_normalize_spec.1 _,
    import_skip_normalize_spec.2.1 "Genesis" 1 _ rfl,
    import_skip_normalize_spec.2.2.1 "Genesis" 1 _ rfl,
    import_skip_normalize_spec.2.2.2.1 "Genesis" 1 _ rfl,
    import_skip_normalize_spec.2.2.2.2.1 _ rfl,
    import_skip_normalize_spec.2.2.2.2.2 "Genesis" 1 _ 3 rfl (by decide) rfl⟩

/-- Claim C9: a successful import returns the count of parsed verse rows
and the count of distinct book names among them; when the parsed rows
have pairwise distinct keys (as any source without duplicate ordinals
yields), these equal exactly the row count and the distinct book count of
the records landed in an initially empty collection. -/
theorem import_result_counts (doc : BibleDoc) (res : ImportResult) (s1 : VerseStore)
    (h : importBibleFromXML (some doc) [] = (Except.ok res, s1)) :
    res.verses = (parseRows doc).length ∧
    res.books = distinctBookCount (parseRows doc) ∧
    (((parseRows doc).map (fun r => r.key)).Nodup →
        countStore s1 = res.verses ∧ distinctBookCount s1 = res.books) := by
  rcases Bool.eq_false_or_eq_true (parseRows doc).isEmpty with he | he
  · exfalso
    simp only [importBibleFromXML, he, if_true] at h
    exact Except.noConfusion (congrArg Prod.fst h)
  · simp only [importBibleFromXML, he, Bool.false_eq_true, if_false] at h
    rw [Prod.mk.injEq] at h
    obtain ⟨h1, h2⟩ := h
    rw [Except.ok.injEq] at h1
    refine ⟨by rw [← h1], by rw [← h1], ?_⟩
    intro hnd
    have hperm : List.Perm s1 (parseRows doc) := by
      rw [← h2]
      exact putMany_perm (parseRows doc) [] (fun r hr => rfl) hnd
    constructor
    · have hc : countStore s1 = (parseRows doc).length := hperm.length_eq
      rw [hc, ← h1]
    · have hd : (s1.map (fun r => r.book)).dedup.length =
          ((parseRows doc).map (fun r => r.book)).dedup.length :=
        (List.Perm.dedup (hperm.map (fun r => r.book))).length_eq
      have hd2 : distinctBookCount s1 = distinctBookCount (parseRows doc) := hd
      rw [hd2, ← h1]

/-- Witness for C9 on the demo document. -/
theorem import_result_counts_witness :
    ((parseRows demoDoc).map (fun r => r.key)).Nodup ∧
    countStore [demoRowA, demoRowB] = 2 ∧
    distinctBookCount [demoRowA, demoRowB] = 1 := by
  have h : importBibleFromXML (some demoDoc) [] =
      (Except.ok { verses := 2, books := 1 }, [demoRowA, demoRowB]) := rfl
  have hnd : ((parseRows demoDoc).map (fun r => r.key)).Nodup := by decide
  have hc := (import_result_counts demoDoc _ _ h).2.2 hnd
  exact ⟨hnd, hc.1, hc.2⟩
